import Mathlib

/-!
Shallow embedding of the well-data collector: an ETL pipeline that ingests a
multi-sheet workbook (one sheet per calendar year), filters/sorts/groups the
extracted records, and re-exports them one worksheet per well, while streaming
progress messages to an observer.

The embedding follows the source file of the repository (`src/main.rs`):
`read_excel_file` and `save_excel_file` become pure functions that return the
list of messages they send through the channel together with their outcome.
Machine floats (`f64`) are modelled opaquely (see `F64`); the library-supplied
datetime coercion of cells is an explicit parameter of the ingestion function.
-/

namespace WellData

/-- Header text the ingestion engine looks up for the well-name column
(`NAME_COL` in the source). -/
def NAME_COL : String := "@Name( )"

/-- Header text for the temperature column (`TEMPERATURE_COL` in the source);
its first character is a Cyrillic capital Te, not a Latin T. -/
def TEMPERATURE_COL : String := "Тemperature"

/-- Opaque model of a Rust `f64` cell payload.  The embedded code never does
arithmetic on floats: it only moves them around and, for the well-name column,
renders them with the default `to_string` formatting.  A value is therefore
identified by that rendering, stored in `rep`. -/
structure F64 where
  rep : String
deriving DecidableEq, Repr

/-- Model of the cell type of the spreadsheet-reading library (`calamine::Data`):
a closed tagged variant of everything a cell can hold. -/
inductive Data where
  | string (s : String)
  | int (i : Int)
  | float (f : F64)
  | dateTime (d : Int)
  | dateTimeIso (s : String)
  | durationIso (s : String)
  | bool (b : Bool)
  | error
  | empty
deriving DecidableEq, Repr

/-- Model of the library's `Data::get_string`: only textual cells yield a string. -/
def Data.getString : Data → Option String
  | .string s => some s
  | _ => none

/-- Model of the library's `Data::get_float`: only float cells yield a float. -/
def Data.getFloat : Data → Option F64
  | .float f => some f
  | _ => none

/-- One sheet of the input workbook: its name and its rows (first row = header). -/
structure Sheet where
  name : String
  rows : List (List Data)
deriving DecidableEq, Repr

/-- A workbook is its sheets in workbook order. -/
abbrev Workbook := List Sheet

/-- The record type produced by ingestion (`WellRecord` in the source).
Datetimes are modelled as integers: only their total order is ever used. -/
structure WellRecord where
  well_name : String
  date : Option Int
  pd_liq : Option F64
  pd_oil : Option F64
  temperature : Option F64
  year_sheet : Int
deriving DecidableEq, Repr

/-- The message protocol from worker to observer (`LoaderMessage` in the source).
The two `f32` progress fractions are modelled as rationals. -/
inductive LoaderMessage where
  | progress (globalProg localProg : Rat) (text : String)
  | loaded (records : List WellRecord) (years : List Int) (wells : List String)
  | saved (path : String)
  | error (text : String)
deriving DecidableEq, Repr

/-- Whether a message is a Progress message. -/
def isProgress : LoaderMessage → Bool
  | .progress _ _ _ => true
  | _ => false

/-- Whether a message is terminal (Loaded, Saved or Error). -/
def isTerminal : LoaderMessage → Bool
  | .progress _ _ _ => false
  | _ => true

/-- Numeric value of a list of decimal digit characters. -/
def digitsToNat (ds : List Char) : Nat :=
  ds.foldl (fun acc c => acc * 10 + (c.toNat - 48)) 0

/-- Shared body of `parseI32`: parse an unsigned digit string and apply the sign,
rejecting values outside the `i32` range. -/
def parseI32Digits (sign : Int) (ds : List Char) : Option Int :=
  if ds = [] then none
  else if ds.all Char.isDigit then
    let v : Int := sign * (digitsToNat ds : Int)
    if -(2 ^ 31) ≤ v ∧ v ≤ 2 ^ 31 - 1 then some v else none
  else none

/-- Model of Rust's `str::parse::<i32>()`: an optional sign followed by one or
more ASCII decimal digits, value within the `i32` range; anything else fails. -/
def parseI32 (s : String) : Option Int :=
  match s.data with
  | '+' :: rest => parseI32Digits 1 rest
  | '-' :: rest => parseI32Digits (-1) rest
  | cs => parseI32Digits 1 cs

/-- Insertion into a `BTreeSet` modelled as a strictly sorted list: this is the
set's iteration order, so collecting the set at the end is the identity. -/
def setInsert {α : Type} [LinearOrder α] (x : α) : List α → List α
  | [] => [x]
  | y :: ys =>
    if x < y then x :: y :: ys
    else if x = y then y :: ys
    else y :: setInsert x ys

/-- Column resolver, first half: the header map built by the source's loop over
the first row (`col_map`), keeping textual cells only, later entries
overwriting earlier ones exactly as `HashMap::insert` does. -/
def colMap (header : List Data) : List (String × Nat) :=
  header.enum.filterMap fun p => (Data.getString p.2).map fun s => (s, p.1)

/-- Column resolver, second half: lookup of a header name in the map.  The last
inserted entry for a key wins, matching `HashMap` overwrite semantics. -/
def colLookup (header : List Data) (key : String) : Option Nat :=
  ((colMap header).reverse.find? fun p => p.1 == key).map fun p => p.2

/-- Accumulator state of one ingestion pass: the records in extraction order and
the two `BTreeSet`s (modelled as sorted lists) of years and well names. -/
structure IngestState where
  records : List WellRecord
  years : List Int
  wells : List String
deriving DecidableEq, Repr

/-- Everything the data-row loop of one accepted sheet needs: the datetime
coercion, the sheet-level progress fraction and name, the parsed year, the
resolved column indices and the total row count of the sheet. -/
structure RowCtx where
  asDT : Data → Option Int
  globalProg : Rat
  sheetName : String
  year : Int
  idxN : Nat
  idxD : Nat
  idxLiq : Option Nat
  idxOil : Option Nat
  idxTemp : Option Nat
  totalRows : Nat

/-- Model of the source's optional-field extraction closure `get_float`:
look the cell up at an optional column index and keep it only if it is a float. -/
def getFloatAt (row : List Data) (idxOpt : Option Nat) : Option F64 :=
  idxOpt.bind fun i => (row.get? i).bind Data.getFloat

/-- The data-row loop of one accepted sheet (the `for (i, row)` loop of
`read_excel_file`): emits a batched progress message every 5000 rows, extracts
the well name from the name column (text as-is, float/int stringified, anything
else drops the row via `continue`), coerces the date cell, reads the optional
numeric fields, and appends the record while inserting the well name into the
well set. -/
def processRows (ctx : RowCtx) : Nat → List (List Data) → IngestState →
    List LoaderMessage × IngestState
  | _, [], st => ([], st)
  | i, row :: rest, st =>
    let ms : List LoaderMessage :=
      if i % 5000 = 0 then
        [.progress ctx.globalProg ((i : Rat) / (ctx.totalRows : Rat))
          ("Лист '" ++ ctx.sheetName ++ "': обработка строк...")]
      else []
    let wellName? : Option String :=
      match row.get? ctx.idxN with
      | some (.string s) => some s
      | some (.float f) => some f.rep
      | some (.int n) => some (toString n)
      | _ => none
    match wellName? with
    | none =>
      let r := processRows ctx (i + 1) rest st
      (ms ++ r.1, r.2)
    | some wn =>
      let record : WellRecord :=
        { well_name := wn
          date := (row.get? ctx.idxD).bind ctx.asDT
          pd_liq := getFloatAt row ctx.idxLiq
          pd_oil := getFloatAt row ctx.idxOil
          temperature := getFloatAt row ctx.idxTemp
          year_sheet := ctx.year }
      let st1 : IngestState :=
        { records := st.records ++ [record]
          years := st.years
          wells := setInsert wn st.wells }
      let r := processRows ctx (i + 1) rest st1
      (ms ++ r.1, r.2)

/-- The sheet loop of `read_excel_file`: for each sheet report sheet-level
progress, try to parse its name as an `i32`; on failure skip it; on success an
empty sheet is a fatal "Пустой лист" error, otherwise resolve the header
columns, and only when both the name column and the Date column resolve insert
the year and run the row loop. -/
def processSheets (asDT : Data → Option Int) (total : Nat) :
    Nat → List Sheet → IngestState → List LoaderMessage × Except String IngestState
  | _, [], st => ([], .ok st)
  | idx, sheet :: rest, st =>
    let g : Rat := (idx : Rat) / (total : Rat)
    let m0 : LoaderMessage :=
      .progress g 0 ("Лист '" ++ sheet.name ++ "': чтение и парсинг (ждите)...")
    match parseI32 sheet.name with
    | none =>
      let r := processSheets asDT total (idx + 1) rest st
      (m0 :: r.1, r.2)
    | some year =>
      match sheet.rows with
      | [] => ([m0], .error "Пустой лист")
      | header :: dataRows =>
        match colLookup header NAME_COL, colLookup header "Date" with
        | some idxN, some idxD =>
          let st0 : IngestState :=
            { records := st.records, years := setInsert year st.years, wells := st.wells }
          let ctx : RowCtx :=
            { asDT := asDT, globalProg := g, sheetName := sheet.name, year := year
              idxN := idxN, idxD := idxD
              idxLiq := colLookup header "PdLiq"
              idxOil := colLookup header "PdOil"
              idxTemp := colLookup header TEMPERATURE_COL
              totalRows := (header :: dataRows).length }
          let rowsOut := processRows ctx 0 dataRows st0
          let r := processSheets asDT total (idx + 1) rest rowsOut.2
          (m0 :: rowsOut.1 ++ r.1, r.2)
        | _, _ =>
          let r := processSheets asDT total (idx + 1) rest st
          (m0 :: r.1, r.2)

/-- Model of `read_excel_file`: the messages it sends through the channel, in
order, and its return value — the accumulated records plus the collected year
and well sets (already in ascending order), or the first fatal error.  `asDT`
is the library's best-effort cell-to-datetime coercion, taken as a parameter. -/
def readExcelFile (asDT : Data → Option Int) (wb : Workbook) :
    List LoaderMessage × Except String (List WellRecord × List Int × List String) :=
  let m0 : LoaderMessage := .progress 0 0 "Открытие файла..."
  let r := processSheets asDT wb.length 0 wb ⟨[], [], []⟩
  match r.2 with
  | .error e => (m0 :: r.1, .error e)
  | .ok st =>
    (m0 :: r.1 ++ [.progress 1 1 "Финализация..."],
      .ok (st.records, st.years, st.wells))

/-- The full message sequence of a load job as delivered to the observer: what
`read_excel_file` sent through the channel, followed by the one message the
worker wrapper of `start_worker` sends for its return value (`Loaded` on
success, `Error` on failure). -/
def loadJobMessages (asDT : Data → Option Int) (wb : Workbook) : List LoaderMessage :=
  let r := readExcelFile asDT wb
  r.1 ++ [match r.2 with
          | .ok (recs, ys, ws) => .loaded recs ys ws
          | .error e => .error e]

/-- The record filter of `save_excel_file`: keep a record iff its sheet year is
at least the chosen start year and its well is among the selected wells.  The
selected-well `HashSet` is modelled as a list used only through membership. -/
def filterRecords (data : List WellRecord) (startYear : Int)
    (selectedWells : List String) : List WellRecord :=
  data.filter fun r => decide (startYear ≤ r.year_sheet) && selectedWells.contains r.well_name

/-- The comparator of the source's `sort_by` call: well name first, then the
optional date, where `Option` ordering places `none` before every `some`
exactly as Rust's `Option` ordering does. -/
def cmpRec (a b : WellRecord) : Ordering :=
  (compare a.well_name b.well_name).then (compare a.date b.date)

/-- The non-strict order induced by `cmpRec`, as a boolean. -/
def recLE (a b : WellRecord) : Bool := cmpRec a b != Ordering.gt

/-- The sort of `save_excel_file`.  Rust's `sort_by` is a stable sort for the
comparator, and a stable sort is a unique function of comparator and input, so
it is realized here by `List.mergeSort`. -/
def sortRecords (l : List WellRecord) : List WellRecord := l.mergeSort recLE

/-- The `wells_to_export` collection of `save_excel_file`: the distinct well
names of the retained records, in ascending `BTreeSet` iteration order. -/
def wellsToExport (sorted : List WellRecord) : List String :=
  sorted.foldl (fun acc r => setInsert r.well_name acc) []

/-- The characters `save_excel_file` replaces in a well name before using it as
a worksheet name. -/
def forbiddenChars : List Char := ['/', '\\', '?', '*', '[', ']']

/-- Model of the source's `well_name.replace(['/', '\\', '?', '*', '[', ']'], "_")`:
each forbidden character becomes an underscore. -/
def sanitizeName (s : String) : String :=
  ⟨s.data.map fun c => if forbiddenChars.contains c then '_' else c⟩

/-- Byte-indexed prefix of a character list: Rust's `&s[..n]`.  Returns `none`
exactly when byte position `n` is not a character boundary of the string, in
which case the Rust slice expression panics. -/
def takeBytes : Nat → List Char → Option (List Char)
  | 0, _ => some []
  | _ + 1, [] => none
  | n + 1, c :: cs =>
    if c.utf8Size ≤ n + 1 then (takeBytes (n + 1 - c.utf8Size) cs).map (c :: ·)
    else none

/-- The worksheet-name computation of `save_excel_file`: sanitize the well name,
then, if its byte length exceeds 30, take the first 30 bytes — `none` models
the panic of `&safe_name[..30]` when byte 30 splits a multi-byte character. -/
def sheetName (well : String) : Option String :=
  let safe := sanitizeName well
  if 30 < safe.utf8ByteSize then (takeBytes 30 safe.data).map List.asString
  else some safe

/-- Claim-side worksheet-name function, stated over characters the way the
specification words it: replace the forbidden characters, and if the sanitized
name exceeds 30 characters truncate to the first 30 characters. -/
def specSheetNameChars (well : String) : String :=
  let safe := sanitizeName well
  if 30 < safe.data.length then ⟨safe.data.take 30⟩ else safe

/-- How a save job's worker run can end: the function returns `Ok` carrying its
terminal message, returns `Err`, or panics and returns nothing at all. -/
inductive JobOutcome where
  | ok (m : LoaderMessage)
  | err (e : String)
  | panic
deriving DecidableEq, Repr

/-- Status of the per-well export loop: finished, failed on worksheet creation,
or panicked on a mid-character byte truncation. -/
inductive SaveStatus where
  | done
  | errored (e : String)
  | panicked
deriving DecidableEq, Repr

/-- The batched progress messages of the per-well row loop of
`save_excel_file`: one message per 500 rows written. -/
def rowProgressMessages (g : Rat) (well : String) (totalRows : Nat) : List LoaderMessage :=
  (List.range totalRows).filterMap fun i =>
    if i % 500 = 0 then
      some (.progress g ((i : Rat) / (totalRows : Rat))
        ("Скважина " ++ well ++ ": строка " ++ toString i ++ "/" ++ toString totalRows))
    else none

/-- The per-well loop of `save_excel_file`: report progress for the well,
compute its worksheet name (a `none` is the byte-slice panic), create the
worksheet — modelled from the spec: the output library rejects a worksheet name
that has already been used, surfacing the collision as an error whose exact
text is the library's, not this repository's — then write the well's rows,
emitting batched progress.  `used` is the list of worksheet names created so
far. -/
def processWells (sorted : List WellRecord) (total : Nat) :
    Nat → List String → List String → List LoaderMessage × SaveStatus
  | _, [], _ => ([], .done)
  | idx, w :: rest, used =>
    let g : Rat := (idx : Rat) / (total : Rat)
    let m0 : LoaderMessage := .progress g 0 ("Запись скважины: " ++ w)
    match sheetName w with
    | none => ([m0], .panicked)
    | some sn =>
      if used.contains sn then
        ([m0], .errored ("Worksheet name '" ++ sn ++ "' has already been used"))
      else
        let recs := sorted.filter fun r => r.well_name == w
        let rms := rowProgressMessages g w recs.length
        let r := processWells sorted total (idx + 1) rest (sn :: used)
        (m0 :: rms ++ r.1, r.2)

/-- Model of `save_excel_file`: filter, sort, collect the wells to export, run
the per-well loop, and on success report final progress and persist the file.
`diskErr` abstracts the external disk write: `none` means `workbook.save`
succeeds, `some e` that it fails with error text `e`. -/
def saveExcelFile (path : String) (data : List WellRecord) (startYear : Int)
    (selectedWells : List String) (diskErr : Option String) :
    List LoaderMessage × JobOutcome :=
  let m0 : LoaderMessage := .progress 0 0 "Подготовка данных..."
  let sorted := sortRecords (filterRecords data startYear selectedWells)
  let wells := wellsToExport sorted
  let r := processWells sorted wells.length 0 wells []
  match r.2 with
  | .panicked => (m0 :: r.1, .panic)
  | .errored e => (m0 :: r.1, .err e)
  | .done =>
    let mf : LoaderMessage := .progress 1 1 "Сохранение файла на диск..."
    match diskErr with
    | some e => (m0 :: r.1 ++ [mf], .err e)
    | none => (m0 :: r.1 ++ [mf], .ok (.saved path))

/-- The full message sequence of a save job as delivered to the observer: what
`save_excel_file` sent through the channel, then the message the wrapper in
`start_worker` sends for the returned value — and nothing at all after a
panic, because the panicking worker thread never returns to the wrapper. -/
def saveJobMessages (path : String) (data : List WellRecord) (startYear : Int)
    (selectedWells : List String) (diskErr : Option String) : List LoaderMessage :=
  let r := saveExcelFile path data startYear selectedWells diskErr
  r.1 ++ match r.2 with
         | .ok m => [m]
         | .err e => [.error e]
         | .panic => []

/-- Whether a save job panics (the per-well loop hits a worksheet name whose
byte-30 truncation point falls inside a multi-byte character). -/
def saveJobPanics (path : String) (data : List WellRecord) (startYear : Int)
    (selectedWells : List String) (diskErr : Option String) : Prop :=
  (saveExcelFile path data startYear selectedWells diskErr).2 = .panic

instance {ε α : Type} [DecidableEq ε] [DecidableEq α] : DecidableEq (Except ε α) := fun x y =>
  match x, y with
  | .error a, .error b =>
    if h : a = b then isTrue (by rw [h]) else isFalse fun he => h (Except.error.inj he)
  | .ok a, .ok b =>
    if h : a = b then isTrue (by rw [h]) else isFalse fun he => h (Except.ok.inj he)
  | .error _, .ok _ => isFalse fun he => Except.noConfusion he
  | .ok _, .error _ => isFalse fun he => Except.noConfusion he

instance (path : String) (data : List WellRecord) (startYear : Int)
    (selectedWells : List String) (diskErr : Option String) :
    Decidable (saveJobPanics path data startYear selectedWells diskErr) := by
  unfold saveJobPanics
  infer_instance

/-- Claim-side description of well-name extraction from the name-column cell,
stated the way the specification words it: textual cells copied as-is, float
and integer cells stringified with their default formatting, any other cell
kind or a missing cell yields nothing. -/
def specWellNameOfCell : Option Data → Option String
  | some (.string s) => some s
  | some (.float f) => some f.rep
  | some (.int n) => some (toString n)
  | _ => none

/-- Claim-side description of the record a single data row contributes: a
record exactly when the well name extracts, carrying the coerced date and the
three optional numeric fields. -/
def specRowRecord (ctx : RowCtx) (row : List Data) : Option WellRecord :=
  (specWellNameOfCell (row.get? ctx.idxN)).map fun wn =>
    { well_name := wn
      date := (row.get? ctx.idxD).bind ctx.asDT
      pd_liq := getFloatAt row ctx.idxLiq
      pd_oil := getFloatAt row ctx.idxOil
      temperature := getFloatAt row ctx.idxTemp
      year_sheet := ctx.year }

instance : Batteries.TransOrd (Option Int) where
  symm x y := by
    cases x with
    | none => cases y <;> rfl
    | some a =>
      cases y with
      | none => rfl
      | some b =>
        show (compare a b).swap = compare b a
        exact Batteries.OrientedCmp.symm a b
  le_trans := @fun x y z h1 h2 => by
    cases x with
    | none => cases z <;> exact fun h => nomatch h
    | some a =>
      cases y with
      | none => exact absurd rfl h1
      | some b =>
        cases z with
        | none => exact absurd rfl h2
        | some c =>
          show compare a c ≠ Ordering.gt
          have h1i : compare a b ≠ Ordering.gt := h1
          have h2i : compare b c ≠ Ordering.gt := h2
          exact Batteries.TransCmp.le_trans h1i h2i

instance : Batteries.TransCmp cmpRec := by
  have h : cmpRec = compareLex (compareOn WellRecord.well_name) (compareOn WellRecord.date) := rfl
  rw [h]
  infer_instance

/-- Message-free shadow of the data-row loop: the state after processing the
rows, used to factor proofs — `processRows_snd` proves it equal to the state
component of `processRows`. -/
def rowsState (asDT : Data → Option Int) (year : Int) (idxN idxD : Nat)
    (idxLiq idxOil idxTemp : Option Nat) : List (List Data) → IngestState → IngestState
  | [], st => st
  | row :: rest, st =>
    let wellName? : Option String :=
      match row.get? idxN with
      | some (.string s) => some s
      | some (.float f) => some f.rep
      | some (.int n) => some (toString n)
      | _ => none
    match wellName? with
    | none => rowsState asDT year idxN idxD idxLiq idxOil idxTemp rest st
    | some wn =>
      let record : WellRecord :=
        { well_name := wn
          date := (row.get? idxD).bind asDT
          pd_liq := getFloatAt row idxLiq
          pd_oil := getFloatAt row idxOil
          temperature := getFloatAt row idxTemp
          year_sheet := year }
      rowsState asDT year idxN idxD idxLiq idxOil idxTemp rest
        { records := st.records ++ [record]
          years := st.years
          wells := setInsert wn st.wells }

/-! ## Helper lemmas -/

/-- The state component of the data-row loop depends only on the datetime
coercion, year and column indices — not on the progress bookkeeping. -/
theorem processRows_snd (ctx : RowCtx) :
    ∀ (rows : List (List Data)) (i : Nat) (st : IngestState),
      (processRows ctx i rows st).2 =
        rowsState ctx.asDT ctx.year ctx.idxN ctx.idxD ctx.idxLiq ctx.idxOil ctx.idxTemp
          rows st := by
  intro rows
  induction rows with
  | nil =>
    intro i st
    rfl
  | cons row rest ih =>
    intro i st
    rcases hcell : row[ctx.idxN]? with _ | cell
    · simp only [processRows, rowsState, List.get?_eq_getElem?, hcell]
      exact ih _ _
    · cases cell <;>
        simp only [processRows, rowsState, List.get?_eq_getElem?, hcell] <;>
        exact ih _ _

/-- An ASCII character encodes to a single UTF-8 byte. -/
theorem utf8Size_eq_one_of_ascii {c : Char} (h : c.toNat < 128) : c.utf8Size = 1 := by
  have hv : c.val ≤ (127 : UInt32) := by
    rw [UInt32.le_def, BitVec.le_def]
    exact Nat.le_of_lt_succ h
  simp [Char.utf8Size, hv]

/-- Byte-prefix extraction over single-byte characters is `List.take`. -/
theorem takeBytes_of_ascii : ∀ (n : Nat) (cs : List Char), (∀ c ∈ cs, c.utf8Size = 1) →
    n ≤ cs.length → takeBytes n cs = some (cs.take n)
  | 0, cs, _, _ => by simp [takeBytes]
  | n + 1, [], _, hle => by simp at hle
  | n + 1, c :: cs, h1, hle => by
    have hc : c.utf8Size = 1 := h1 c (List.mem_cons_self c cs)
    have hrest : ∀ x ∈ cs, x.utf8Size = 1 := fun x hx => h1 x (List.mem_cons_of_mem c hx)
    have hlen : n ≤ cs.length := Nat.le_of_succ_le_succ (by simpa using hle)
    simp [takeBytes, hc, takeBytes_of_ascii n cs hrest hlen]

/-- The UTF-8 byte length of a list of single-byte characters is its length. -/
theorem utf8Len_of_ascii : ∀ cs : List Char, (∀ c ∈ cs, c.utf8Size = 1) →
    String.utf8Len cs = cs.length
  | [], _ => rfl
  | c :: cs, h => by
    have hc : c.utf8Size = 1 := h c (List.mem_cons_self c cs)
    have hrest := utf8Len_of_ascii cs fun x hx => h x (List.mem_cons_of_mem c hx)
    simp [hrest, hc]

/-- Sanitization maps ASCII characters to ASCII characters. -/
theorem sanitizeName_ascii {s : String} (h : ∀ c ∈ s.data, c.toNat < 128) :
    ∀ c ∈ (sanitizeName s).data, c.toNat < 128 := by
  intro c hc
  simp only [sanitizeName, List.mem_map] at hc
  obtain ⟨a, ha, rfl⟩ := hc
  by_cases hf : forbiddenChars.contains a
  · simp only [if_pos hf]
    decide
  · simp only [if_neg hf]
    exact h a ha

/-- The comparator-induced relation is total. -/
theorem bne_gt_eq_true_iff {o : Ordering} : (o != Ordering.gt) = true ↔ o ≠ Ordering.gt := by
  cases o <;> decide

theorem recLE_total (a b : WellRecord) : recLE a b || recLE b a := by
  by_cases h : cmpRec a b = Ordering.gt
  · have hlt := Batteries.OrientedCmp.cmp_eq_gt.mp h
    unfold recLE
    rw [h, hlt]
    decide
  · unfold recLE
    rw [bne_gt_eq_true_iff.mpr h]
    rfl

/-- The comparator-induced relation is transitive. -/
theorem recLE_trans (a b c : WellRecord) (h1 : recLE a b) (h2 : recLE b c) : recLE a c :=
  bne_gt_eq_true_iff.mpr
    (Batteries.TransCmp.le_trans (bne_gt_eq_true_iff.mp h1) (bne_gt_eq_true_iff.mp h2))

/-- Records with identical sort keys compare equal. -/
theorem cmpRec_eq_of_key {a b : WellRecord} (hn : a.well_name = b.well_name)
    (hd : a.date = b.date) : cmpRec a b = Ordering.eq := by
  unfold cmpRec
  rw [hn, hd,
    @Batteries.OrientedCmp.cmp_refl String compare b.well_name _,
    @Batteries.OrientedCmp.cmp_refl (Option Int) compare b.date _]
  rfl

/-- With equal well names, an absent date compares strictly below a present one. -/
theorem cmpRec_none_lt_some {a b : WellRecord} (hn : a.well_name = b.well_name)
    (ha : a.date = none) {d : Int} (hb : b.date = some d) : cmpRec a b = Ordering.lt := by
  unfold cmpRec
  rw [hn, @Batteries.OrientedCmp.cmp_refl String compare b.well_name _, ha, hb]
  rfl

/-- Membership description of the export filter. -/
theorem mem_filterRecords {data : List WellRecord} {sy : Int} {wells : List String}
    {r : WellRecord} :
    r ∈ filterRecords data sy wells ↔ r ∈ data ∧ (sy ≤ r.year_sheet ∧ r.well_name ∈ wells) := by
  simp [filterRecords, List.mem_filter, List.contains_iff_exists_mem_beq, and_assoc]

/-! ## Claims -/

/-- C1 (counterexample).  The claim says the worksheet name is the sanitized
well name truncated to its first 30 *characters* when it exceeds 30 characters.
For the 16-character name "яя…я" (32 UTF-8 bytes) the code truncates at byte 30
and produces the first 15 characters, while the claim requires the name to pass
through unchanged (it has only 16 characters). -/
theorem claim_C1_counterexample :
    sheetName (String.mk (List.replicate 16 'я')) ≠
      some (specSheetNameChars (String.mk (List.replicate 16 'я'))) := by
  decide

/-- C1 (amended).  The sanitation is as claimed, but the length test and the
truncation are on UTF-8 bytes, not characters.  For well names made of ASCII
characters the two notions coincide, so there the worksheet name is exactly the
character-level sanitize-and-truncate of the claim; in particular a
35-character all-ASCII name yields its first 30 characters. -/
theorem claim_C1 (s : String) (h : ∀ c ∈ s.data, c.toNat < 128) :
    sheetName s = some (specSheetNameChars s) := by
  have hA : ∀ c ∈ (sanitizeName s).data, c.utf8Size = 1 := fun c hc =>
    utf8Size_eq_one_of_ascii (sanitizeName_ascii h c hc)
  have hbytes : (sanitizeName s).utf8ByteSize = (sanitizeName s).data.length := by
    have : (sanitizeName s).utf8ByteSize = String.utf8Len (sanitizeName s).data := rfl
    rw [this, utf8Len_of_ascii _ hA]
  unfold sheetName specSheetNameChars
  simp only [hbytes]
  by_cases h30 : 30 < (sanitizeName s).data.length
  · simp only [if_pos h30]
    rw [takeBytes_of_ascii 30 (sanitizeName s).data hA (Nat.le_of_lt h30)]
    rfl
  · simp only [if_neg h30]

/-- C1 (witness): a 35-character all-ASCII well name satisfies the ASCII
hypothesis, and its exported worksheet name is its first 30 characters. -/
theorem claim_C1_witness :
    (∀ c ∈ (String.mk (List.replicate 35 'a')).data, c.toNat < 128) ∧
      sheetName (String.mk (List.replicate 35 'a')) =
        some (specSheetNameChars (String.mk (List.replicate 35 'a'))) ∧
      specSheetNameChars (String.mk (List.replicate 35 'a')) =
        String.mk (List.replicate 30 'a') :=
  ⟨by decide, claim_C1 (String.mk (List.replicate 35 'a')) (by decide), by decide⟩

/-- C2.  Sheet-name truncation is byte-based and partial: for the well name of
29 ASCII characters followed by one two-byte character, the sanitized name is
31 bytes long, byte 30 falls inside the final character, the slice expression
of the source panics (modelled by `sheetName` returning `none`), and therefore
a save job over this well name panics — export is not total over well names. -/
theorem claim_C2 :
    30 < (sanitizeName (String.mk (List.replicate 29 'a' ++ ['я']))).utf8ByteSize ∧
      sheetName (String.mk (List.replicate 29 'a' ++ ['я'])) = none ∧
      saveJobPanics "out.xlsx"
        [⟨String.mk (List.replicate 29 'a' ++ ['я']), none, none, none, none, 2020⟩]
        2020 [String.mk (List.replicate 29 'a' ++ ['я'])] none := by
  refine ⟨by decide, by decide, ?_⟩
  have hfilter :
      filterRecords
          [⟨String.mk (List.replicate 29 'a' ++ ['я']), none, none, none, none, 2020⟩]
          2020 [String.mk (List.replicate 29 'a' ++ ['я'])] =
        [⟨String.mk (List.replicate 29 'a' ++ ['я']), none, none, none, none, 2020⟩] := by
    decide
  have hsort :
      sortRecords
          [(⟨String.mk (List.replicate 29 'a' ++ ['я']), none, none, none, none, 2020⟩ :
            WellRecord)] =
        [⟨String.mk (List.replicate 29 'a' ++ ['я']), none, none, none, none, 2020⟩] := by
    simp [sortRecords]
  unfold saveJobPanics saveExcelFile
  rw [hfilter, hsort]
  decide

/-- C3.  The export sort uses a total order (the comparator relation is total;
with equal well names an absent timestamp orders strictly before any present
one), sorting is idempotent, and the sort is stable: two records with
identical (well name, timestamp) keys that appear in order in the input appear
in the same order in the output. -/
theorem claim_C3 :
    (∀ a b : WellRecord, recLE a b || recLE b a) ∧
      (∀ a b : WellRecord, a.well_name = b.well_name → a.date = none →
        ∀ d : Int, b.date = some d → recLE a b = true ∧ recLE b a = false) ∧
      (∀ l : List WellRecord, sortRecords (sortRecords l) = sortRecords l) ∧
      (∀ (l : List WellRecord) (a b : WellRecord), a.well_name = b.well_name →
        a.date = b.date → List.Sublist [a, b] l → List.Sublist [a, b] (sortRecords l)) := by
  refine ⟨recLE_total, ?_, ?_, ?_⟩
  · intro a b hn ha d hb
    have hlt := cmpRec_none_lt_some hn ha hb
    have hgt : cmpRec b a = Ordering.gt := Batteries.OrientedCmp.cmp_eq_gt.mpr hlt
    constructor
    · unfold recLE
      rw [hlt]
      rfl
    · unfold recLE
      rw [hgt]
      rfl
  · intro l
    exact List.mergeSort_of_sorted (List.sorted_mergeSort recLE_trans recLE_total _)
  · intro l a b hn hd hsub
    have hab : recLE a b := by
      unfold recLE
      rw [cmpRec_eq_of_key hn hd]
      rfl
    exact List.pair_sublist_mergeSort recLE_trans recLE_total hab hsub

/-- C3 (witness): concrete instances — idempotence on a two-record list, the
none-before-some ordering, and stability for two records that differ only in a
payload field while sharing the (well name, timestamp) key. -/
theorem claim_C3_witness :
    sortRecords (sortRecords [⟨"B", some 5, none, none, none, 2020⟩,
        ⟨"A", none, none, none, none, 2021⟩]) =
      sortRecords [⟨"B", some 5, none, none, none, 2020⟩,
        ⟨"A", none, none, none, none, 2021⟩] ∧
      (recLE ⟨"A", none, none, none, none, 2020⟩ ⟨"A", some 3, none, none, none, 2020⟩ = true ∧
        recLE ⟨"A", some 3, none, none, none, 2020⟩ ⟨"A", none, none, none, none, 2020⟩ = false) ∧
      List.Sublist
        [⟨"A", some 3, none, none, none, 2020⟩, ⟨"A", some 3, none, none, none, 2021⟩]
        (sortRecords [⟨"A", some 3, none, none, none, 2020⟩,
          ⟨"B", none, none, none, none, 2019⟩, ⟨"A", some 3, none, none, none, 2021⟩]) :=
  ⟨claim_C3.2.2.1 _,
    claim_C3.2.1 ⟨"A", none, none, none, none, 2020⟩ ⟨"A", some 3, none, none, none, 2020⟩
      rfl rfl 3 rfl,
    claim_C3.2.2.2 _ _ _ rfl rfl (by decide)⟩

/-- C4.  A record is retained by the export filter iff its sheet year is at
least the start year and its well name is among the selected wells. -/
theorem claim_C4 (data : List WellRecord) (startYear : Int) (selectedWells : List String)
    (r : WellRecord) :
    r ∈ filterRecords data startYear selectedWells ↔
      r ∈ data ∧ (startYear ≤ r.year_sheet ∧ r.well_name ∈ selectedWells) :=
  mem_filterRecords

/-- C5.  Filtering is antitone in the start year: raising the start year can
only shrink the retained set (well selection held constant). -/
theorem claim_C5 (data : List WellRecord) (selectedWells : List String) (sa sb : Int)
    (h : sa ≤ sb) (r : WellRecord) (hr : r ∈ filterRecords data sb selectedWells) :
    r ∈ filterRecords data sa selectedWells := by
  obtain ⟨hd, hy, hw⟩ := mem_filterRecords.mp hr
  exact mem_filterRecords.mpr ⟨hd, le_trans h hy, hw⟩

/-- C5 (witness): concrete instance with start years 2020 ≤ 2021. -/
theorem claim_C5_witness :
    (2020 : Int) ≤ 2021 ∧
      (⟨"A7", none, none, none, none, 2021⟩ : WellRecord) ∈
        filterRecords [⟨"A7", none, none, none, none, 2021⟩] 2020 ["A7"] :=
  ⟨by decide,
    claim_C5 [⟨"A7", none, none, none, none, 2021⟩] ["A7"] 2020 2021 (by decide)
      ⟨"A7", none, none, none, none, 2021⟩ (by decide)⟩

/-- The outcome component of the sheet loop does not depend on the sheet
counter or the total sheet count (they only shape progress messages). -/
theorem processSheets_snd_congr (asDT : Data → Option Int) :
    ∀ (ss : List Sheet) (total total' idx idx' : Nat) (st : IngestState),
      (processSheets asDT total idx ss st).2 = (processSheets asDT total' idx' ss st).2 := by
  intro ss
  induction ss with
  | nil =>
    intro total total' idx idx' st
    rfl
  | cons s rest ih =>
    intro total total' idx idx' st
    rcases hp : parseI32 s.name with _ | year
    · simp only [processSheets, hp]
      exact ih _ _ _ _ _
    · rcases hr : s.rows with _ | ⟨header, dataRows⟩
      · simp only [processSheets, hp, hr]
      · rcases hn : colLookup header NAME_COL with _ | idxN
        · simp only [processSheets, hp, hr, hn]
          exact ih _ _ _ _ _
        · rcases hd2 : colLookup header "Date" with _ | idxD
          · simp only [processSheets, hp, hr, hn, hd2]
            exact ih _ _ _ _ _
          · simp only [processSheets, hp, hr, hn, hd2, processRows_snd]
            exact ih _ _ _ _ _

/-- A sheet whose name does not parse, or whose header lacks a required
column, is stepped over with the whole state unchanged. -/
theorem processSheets_skip (asDT : Data → Option Int) (total idx : Nat) (s : Sheet)
    (rest : List Sheet) (st : IngestState)
    (h : parseI32 s.name = none ∨
      ∃ header rest2, s.rows = header :: rest2 ∧
        (colLookup header NAME_COL = none ∨ colLookup header "Date" = none)) :
    (processSheets asDT total idx (s :: rest) st).2 =
      (processSheets asDT total (idx + 1) rest st).2 := by
  rcases h with hp | ⟨header, rest2, hr, hcol⟩
  · simp only [processSheets, hp]
  · rcases hp : parseI32 s.name with _ | year
    · simp only [processSheets, hp]
    · rcases hcol with hn | hd2
      · simp only [processSheets, hp, hr, hn]
      · rcases hn : colLookup header NAME_COL with _ | idxN
        · simp only [processSheets, hp, hr, hn]
        · simp only [processSheets, hp, hr, hn, hd2]

/-- Inserting a skippable sheet anywhere in the workbook leaves the outcome
component of the sheet loop unchanged (for any counters on either side). -/
theorem processSheets_insert_skip (asDT : Data → Option Int) (s : Sheet)
    (h : parseI32 s.name = none ∨
      ∃ header rest2, s.rows = header :: rest2 ∧
        (colLookup header NAME_COL = none ∨ colLookup header "Date" = none)) :
    ∀ (pre post : List Sheet) (total total' idx idx' : Nat) (st : IngestState),
      (processSheets asDT total idx (pre ++ s :: post) st).2 =
        (processSheets asDT total' idx' (pre ++ post) st).2 := by
  intro pre
  induction pre with
  | nil =>
    intro post total total' idx idx' st
    rw [List.nil_append, List.nil_append, processSheets_skip asDT total idx s post st h]
    exact processSheets_snd_congr asDT post _ _ _ _ st
  | cons p pre ih =>
    intro post total total' idx idx' st
    rw [List.cons_append, List.cons_append]
    rcases hp : parseI32 p.name with _ | year
    · simp only [processSheets, hp]
      exact ih _ _ _ _ _ _
    · rcases hr : p.rows with _ | ⟨header, dataRows⟩
      · simp only [processSheets, hp, hr]
      · rcases hn : colLookup header NAME_COL with _ | idxN
        · simp only [processSheets, hp, hr, hn]
          exact ih _ _ _ _ _ _
        · rcases hd2 : colLookup header "Date" with _ | idxD
          · simp only [processSheets, hp, hr, hn, hd2]
            exact ih _ _ _ _ _ _
          · simp only [processSheets, hp, hr, hn, hd2, processRows_snd]
            exact ih _ _ _ _ _ _

/-- The sheet loop has a single fatal condition, so every error it can return
carries the empty-sheet message. -/
theorem processSheets_error (asDT : Data → Option Int) (total : Nat) :
    ∀ (ss : List Sheet) (idx : Nat) (st : IngestState) (e : String),
      (processSheets asDT total idx ss st).2 = Except.error e → e = "Пустой лист" := by
  intro ss
  induction ss with
  | nil =>
    intro idx st e h
    simp [processSheets] at h
  | cons s rest ih =>
    intro idx st e h
    rcases hp : parseI32 s.name with _ | year
    · simp only [processSheets, hp] at h
      exact ih _ _ _ h
    · rcases hr : s.rows with _ | ⟨header, dataRows⟩
      · simp only [processSheets, hp, hr] at h
        exact (Except.error.inj h).symm
      · rcases hn : colLookup header NAME_COL with _ | idxN <;>
          rcases hd2 : colLookup header "Date" with _ | idxD <;>
          simp only [processSheets, hp, hr, hn, hd2] at h <;>
          exact ih _ _ _ h

/-- If some integer-named sheet of the remaining list is empty, the sheet loop
returns an error. -/
theorem processSheets_error_of_empty (asDT : Data → Option Int) (total : Nat) :
    ∀ (ss : List Sheet) (idx : Nat) (st : IngestState),
      (∃ s ∈ ss, (parseI32 s.name).isSome ∧ s.rows = []) →
      ∃ e, (processSheets asDT total idx ss st).2 = Except.error e := by
  intro ss
  induction ss with
  | nil =>
    rintro idx st ⟨s, hs, -⟩
    exact absurd hs (List.not_mem_nil s)
  | cons s rest ih =>
    rintro idx st ⟨w, hw, hsome, hrows⟩
    rcases List.mem_cons.mp hw with rfl | hw2
    · rcases hp : parseI32 w.name with _ | year
      · rw [hp] at hsome
        simp at hsome
      · simp only [processSheets, hp, hrows]
        exact ⟨_, rfl⟩
    · rcases hp : parseI32 s.name with _ | year
      · simp only [processSheets, hp]
        exact ih _ _ ⟨w, hw2, hsome, hrows⟩
      · rcases hr : s.rows with _ | ⟨header, dataRows⟩
        · simp only [processSheets, hp, hr]
          exact ⟨_, rfl⟩
        · rcases hn : colLookup header NAME_COL with _ | idxN <;>
            rcases hd2 : colLookup header "Date" with _ | idxD <;>
            simp only [processSheets, hp, hr, hn, hd2] <;>
            exact ih _ _ ⟨w, hw2, hsome, hrows⟩

/-- C6.  If any sheet whose name parses as a base-10 integer has no rows at
all, the whole ingestion returns the fatal "Пустой лист" ("empty sheet")
error: the job's terminal message is that Error, never a Loaded result. -/
theorem claim_C6 (asDT : Data → Option Int) (wb : Workbook)
    (h : ∃ s ∈ wb, (parseI32 s.name).isSome ∧ s.rows = []) :
    (readExcelFile asDT wb).2 = Except.error "Пустой лист" ∧
      loadJobMessages asDT wb =
        (readExcelFile asDT wb).1 ++ [LoaderMessage.error "Пустой лист"] := by
  obtain ⟨e, he⟩ := processSheets_error_of_empty asDT wb.length wb 0 ⟨[], [], []⟩ h
  obtain rfl := processSheets_error asDT wb.length wb 0 ⟨[], [], []⟩ e he
  have h2 : (readExcelFile asDT wb).2 = Except.error "Пустой лист" := by
    simp only [readExcelFile, he]
  refine ⟨h2, ?_⟩
  simp only [loadJobMessages, h2]

/-- C6 (witness): a one-sheet workbook whose sheet is named "2020" and has no
rows aborts ingestion with the empty-sheet error. -/
theorem claim_C6_witness :
    (∃ s ∈ [(⟨"2020", []⟩ : Sheet)], (parseI32 s.name).isSome ∧ s.rows = []) ∧
      (readExcelFile (fun _ => none) [⟨"2020", []⟩]).2 = Except.error "Пустой лист" :=
  ⟨by decide, (claim_C6 (fun _ => none) [⟨"2020", []⟩] (by decide)).1⟩

/-- Every message the data-row loop emits is a Progress message. -/
theorem processRows_messages (ctx : RowCtx) :
    ∀ (rows : List (List Data)) (i : Nat) (st : IngestState) (m : LoaderMessage),
      m ∈ (processRows ctx i rows st).1 → isProgress m := by
  intro rows
  induction rows with
  | nil =>
    intro i st m hm
    simp [processRows] at hm
  | cons row rest ih =>
    intro i st m hm
    have hsplit : ∀ (L : List LoaderMessage),
        m ∈ (if i % 5000 = 0 then
              [LoaderMessage.progress ctx.globalProg ((i : Rat) / (ctx.totalRows : Rat))
                ("Лист '" ++ ctx.sheetName ++ "': обработка строк...")] else []) ++ L →
        (m ∈ L → isProgress m) → isProgress m := by
      intro L hmem hL
      rcases List.mem_append.mp hmem with h1 | h2
      · split at h1
        · rcases List.mem_singleton.mp h1 with rfl
          rfl
        · exact absurd h1 (List.not_mem_nil m)
      · exact hL h2
    rcases hcell : row[ctx.idxN]? with _ | cell
    · simp only [processRows, List.get?_eq_getElem?, hcell] at hm
      exact hsplit _ hm (ih _ _ m)
    · cases cell <;>
        simp only [processRows, List.get?_eq_getElem?, hcell] at hm <;>
        exact hsplit _ hm (ih _ _ m)

/-- Every message the sheet loop emits is a Progress message. -/
theorem processSheets_messages (asDT : Data → Option Int) (total : Nat) :
    ∀ (ss : List Sheet) (idx : Nat) (st : IngestState) (m : LoaderMessage),
      m ∈ (processSheets asDT total idx ss st).1 → isProgress m := by
  intro ss
  induction ss with
  | nil =>
    intro idx st m hm
    simp [processSheets] at hm
  | cons s rest ih =>
    intro idx st m hm
    rcases hp : parseI32 s.name with _ | year
    · simp only [processSheets, hp] at hm
      rcases List.mem_cons.mp hm with rfl | h2
      · rfl
      · exact ih _ _ m h2
    · rcases hr : s.rows with _ | ⟨header, dataRows⟩
      · simp only [processSheets, hp, hr] at hm
        rcases List.mem_singleton.mp hm with rfl
        rfl
      · rcases hn : colLookup header NAME_COL with _ | idxN
        · simp only [processSheets, hp, hr, hn] at hm
          rcases List.mem_cons.mp hm with rfl | h2
          · rfl
          · exact ih _ _ m h2
        · rcases hd2 : colLookup header "Date" with _ | idxD
          · simp only [processSheets, hp, hr, hn, hd2] at hm
            rcases List.mem_cons.mp hm with rfl | h2
            · rfl
            · exact ih _ _ m h2
          · simp only [processSheets, hp, hr, hn, hd2] at hm
            rcases List.mem_cons.mp hm with rfl | h2
            · rfl
            · rcases List.mem_append.mp h2 with h3 | h4
              · exact processRows_messages _ _ _ _ m h3
              · exact ih _ _ m h4

/-- Every message `read_excel_file` sends through the channel is Progress. -/
theorem readExcelFile_messages (asDT : Data → Option Int) (wb : Workbook) :
    ∀ m ∈ (readExcelFile asDT wb).1, isProgress m := by
  intro m hm
  unfold readExcelFile at hm
  rcases hres : (processSheets asDT wb.length 0 wb ⟨[], [], []⟩).2 with e | st <;>
    simp only [hres] at hm
  · rcases List.mem_cons.mp hm with rfl | h2
    · rfl
    · exact processSheets_messages _ _ _ _ _ m h2
  · rcases List.mem_cons.mp hm with rfl | h2
    · rfl
    · rcases List.mem_append.mp h2 with h3 | h4
      · exact processSheets_messages _ _ _ _ _ m h3
      · rcases List.mem_singleton.mp h4 with rfl
        rfl

/-- Every message of the batched per-well row loop is Progress. -/
theorem rowProgressMessages_progress (g : Rat) (w : String) (n : Nat) :
    ∀ m ∈ rowProgressMessages g w n, isProgress m := by
  intro m hm
  simp only [rowProgressMessages, List.mem_filterMap] at hm
  obtain ⟨i, -, hi⟩ := hm
  split at hi
  · rcases Option.some.inj hi with rfl
    rfl
  · exact absurd hi (by simp)

/-- Every message the per-well loop emits is Progress. -/
theorem processWells_messages (sorted : List WellRecord) (total : Nat) :
    ∀ (ws : List String) (idx : Nat) (used : List String) (m : LoaderMessage),
      m ∈ (processWells sorted total idx ws used).1 → isProgress m := by
  intro ws
  induction ws with
  | nil =>
    intro idx used m hm
    simp [processWells] at hm
  | cons w rest ih =>
    intro idx used m hm
    rcases hs : sheetName w with _ | sn
    · simp only [processWells, hs] at hm
      rcases List.mem_singleton.mp hm with rfl
      rfl
    · by_cases hu : used.contains sn
      · simp only [processWells, hs, if_pos hu] at hm
        rcases List.mem_singleton.mp hm with rfl
        rfl
      · simp only [processWells, hs, if_neg hu] at hm
        rcases List.mem_cons.mp hm with rfl | h2
        · rfl
        · rcases List.mem_append.mp h2 with h3 | h4
          · exact rowProgressMessages_progress _ _ _ m h3
          · exact ih _ _ m h4

/-- Every message `save_excel_file` sends through the channel is Progress. -/
theorem saveExcelFile_messages (path : String) (data : List WellRecord) (startYear : Int)
    (selectedWells : List String) (diskErr : Option String) :
    ∀ m ∈ (saveExcelFile path data startYear selectedWells diskErr).1, isProgress m := by
  intro m hm
  unfold saveExcelFile at hm
  rcases hst : (processWells (sortRecords (filterRecords data startYear selectedWells))
      (wellsToExport (sortRecords (filterRecords data startYear selectedWells))).length 0
      (wellsToExport (sortRecords (filterRecords data startYear selectedWells))) []).2
    with _ | e | _ <;> simp only [hst] at hm
  · rcases diskErr with _ | e2 <;> simp only at hm <;>
      · rcases List.mem_cons.mp hm with rfl | h2
        · rfl
        · rcases List.mem_append.mp h2 with h3 | h4
          · exact processWells_messages _ _ _ _ _ m h3
          · rcases List.mem_singleton.mp h4 with rfl
            rfl
  · rcases List.mem_cons.mp hm with rfl | h2
    · rfl
    · exact processWells_messages _ _ _ _ _ m h2
  · rcases List.mem_cons.mp hm with rfl | h2
    · rfl
    · exact processWells_messages _ _ _ _ _ m h2

/-- C7 (amended).  A load job always delivers zero or more Progress messages
followed by exactly one terminal message, which comes last.  A save job does
the same whenever it does not panic; a panicking save job (see C2) delivers
Progress messages only and never a terminal message. -/
theorem claim_C7 :
    (∀ (asDT : Data → Option Int) (wb : Workbook),
        ∃ ps t, loadJobMessages asDT wb = ps ++ [t] ∧
          (∀ m ∈ ps, isProgress m) ∧ isTerminal t) ∧
      (∀ (path : String) (data : List WellRecord) (startYear : Int)
          (selectedWells : List String) (diskErr : Option String),
        ¬ saveJobPanics path data startYear selectedWells diskErr →
        ∃ ps t, saveJobMessages path data startYear selectedWells diskErr = ps ++ [t] ∧
          (∀ m ∈ ps, isProgress m) ∧ isTerminal t) ∧
      (∀ (path : String) (data : List WellRecord) (startYear : Int)
          (selectedWells : List String) (diskErr : Option String),
        saveJobPanics path data startYear selectedWells diskErr →
        ∀ m ∈ saveJobMessages path data startYear selectedWells diskErr, isProgress m) := by
  refine ⟨?_, ?_, ?_⟩
  · intro asDT wb
    unfold loadJobMessages
    rcases hres : (readExcelFile asDT wb).2 with e | ⟨recs, ys, ws⟩ <;> simp only [hres]
    · exact ⟨(readExcelFile asDT wb).1, .error e, rfl, readExcelFile_messages asDT wb, rfl⟩
    · exact ⟨(readExcelFile asDT wb).1, .loaded recs ys ws, rfl,
        readExcelFile_messages asDT wb, rfl⟩
  · intro path data sy wells diskErr hnp
    unfold saveJobPanics at hnp
    unfold saveJobMessages
    rcases hoc : (saveExcelFile path data sy wells diskErr).2 with m' | e | _
    · refine ⟨(saveExcelFile path data sy wells diskErr).1, m', by simp only [hoc], ?_, ?_⟩
      · exact saveExcelFile_messages path data sy wells diskErr
      · have : m' = LoaderMessage.saved path := by
          unfold saveExcelFile at hoc
          rcases hst : (processWells (sortRecords (filterRecords data sy wells))
              (wellsToExport (sortRecords (filterRecords data sy wells))).length 0
              (wellsToExport (sortRecords (filterRecords data sy wells))) []).2
            with _ | e2 | _ <;> simp only [hst] at hoc
          · rcases diskErr with _ | e3 <;> simp only at hoc
            · exact (JobOutcome.ok.inj hoc).symm
            · exact absurd hoc (by simp)
          · exact absurd hoc (by simp)
          · exact absurd hoc (by simp)
        rw [this]
        rfl
    · exact ⟨(saveExcelFile path data sy wells diskErr).1, .error e, by simp only [hoc],
        saveExcelFile_messages path data sy wells diskErr, rfl⟩
    · exact absurd hoc hnp
  · intro path data sy wells diskErr hp m hm
    unfold saveJobPanics at hp
    simp only [saveJobMessages, hp, List.append_nil] at hm
    exact saveExcelFile_messages path data sy wells diskErr m hm

/-- C7 (counterexample).  For the export job over the 31-byte well name of C2
the claim fails as stated: the delivered message stream is nonempty but
contains zero terminal messages (the worker panics before returning), so there
is no terminal message at all, let alone exactly one coming last. -/
theorem claim_C7_counterexample :
    (saveJobMessages "out.xlsx"
        [⟨String.mk (List.replicate 29 'a' ++ ['я']), none, none, none, none, 2020⟩]
        2020 [String.mk (List.replicate 29 'a' ++ ['я'])] none).countP
        (fun m => isTerminal m) = 0 ∧
      saveJobMessages "out.xlsx"
        [⟨String.mk (List.replicate 29 'a' ++ ['я']), none, none, none, none, 2020⟩]
        2020 [String.mk (List.replicate 29 'a' ++ ['я'])] none ≠ [] := by
  have hfilter :
      filterRecords
          [⟨String.mk (List.replicate 29 'a' ++ ['я']), none, none, none, none, 2020⟩]
          2020 [String.mk (List.replicate 29 'a' ++ ['я'])] =
        [⟨String.mk (List.replicate 29 'a' ++ ['я']), none, none, none, none, 2020⟩] := by
    decide
  have hsort :
      sortRecords
          [(⟨String.mk (List.replicate 29 'a' ++ ['я']), none, none, none, none, 2020⟩ :
            WellRecord)] =
        [⟨String.mk (List.replicate 29 'a' ++ ['я']), none, none, none, none, 2020⟩] := by
    simp [sortRecords]
  constructor
  · unfold saveJobMessages saveExcelFile
    rw [hfilter, hsort]
    decide
  · unfold saveJobMessages saveExcelFile
    rw [hfilter, hsort]
    decide

/-- C7 (witness): a non-panicking export job — its hypothesis holds at this
concrete input, and the stream is Progress-then-terminal. -/
theorem claim_C7_witness :
    ¬ saveJobPanics "out.xlsx" [⟨"A7", none, none, none, none, 2020⟩] 2020 ["A7"] none ∧
      ∃ ps t, saveJobMessages "out.xlsx" [⟨"A7", none, none, none, none, 2020⟩]
            2020 ["A7"] none = ps ++ [t] ∧
          (∀ m ∈ ps, isProgress m) ∧ isTerminal t := by
  have hfilter :
      filterRecords [⟨"A7", none, none, none, none, 2020⟩] 2020 ["A7"] =
        [⟨"A7", none, none, none, none, 2020⟩] := by
    decide
  have hsort :
      sortRecords [(⟨"A7", none, none, none, none, 2020⟩ : WellRecord)] =
        [⟨"A7", none, none, none, none, 2020⟩] := by
    simp [sortRecords]
  have hnp : ¬ saveJobPanics "out.xlsx" [⟨"A7", none, none, none, none, 2020⟩]
      2020 ["A7"] none := by
    unfold saveJobPanics saveExcelFile
    rw [hfilter, hsort]
    decide
  exact ⟨hnp, claim_C7.2.1 "out.xlsx" [⟨"A7", none, none, none, none, 2020⟩]
    2020 ["A7"] none hnp⟩

/-- Outcome-only description of `readExcelFile`. -/
theorem readExcelFile_snd (asDT : Data → Option Int) (wb : Workbook) :
    (readExcelFile asDT wb).2 =
      match (processSheets asDT wb.length 0 wb ⟨[], [], []⟩).2 with
      | .error e => .error e
      | .ok st => .ok (st.records, st.years, st.wells) := by
  unfold readExcelFile
  rcases h : (processSheets asDT wb.length 0 wb ⟨[], [], []⟩).2 with e | st <;> simp only [h]

/-- C8.  A sheet whose name does not parse as an integer contributes nothing:
removing it from the workbook leaves the ingestion outcome — records, year
set, well set, and error-or-success — unchanged, wherever it appears. -/
theorem claim_C8 (asDT : Data → Option Int) (pre post : Workbook) (s : Sheet)
    (h : parseI32 s.name = none) :
    (readExcelFile asDT (pre ++ s :: post)).2 = (readExcelFile asDT (pre ++ post)).2 := by
  rw [readExcelFile_snd, readExcelFile_snd,
    processSheets_insert_skip asDT s (Or.inl h) pre post
      (pre ++ s :: post).length (pre ++ post).length 0 0 ⟨[], [], []⟩]

/-- C8 (witness): a "Notes" sheet is skipped — the ingestion outcome of the
two-sheet workbook equals that of the workbook without it. -/
theorem claim_C8_witness :
    parseI32 "Notes" = none ∧
      (readExcelFile (fun _ => none)
          ([] ++ (⟨"Notes", [[Data.string "x"]]⟩ : Sheet) ::
            [⟨"2020", [[Data.string NAME_COL, Data.string "Date"], [Data.string "A7"]]⟩])).2 =
        (readExcelFile (fun _ => none)
          ([] ++ [⟨"2020", [[Data.string NAME_COL, Data.string "Date"],
            [Data.string "A7"]]⟩])).2 :=
  ⟨by decide, claim_C8 (fun _ => none) []
    [⟨"2020", [[Data.string NAME_COL, Data.string "Date"], [Data.string "A7"]]⟩]
    ⟨"Notes", [[Data.string "x"]]⟩ (by decide)⟩

/-- Any record the row loop adds to the state carries the loop's year. -/
theorem rowsState_records (asDT : Data → Option Int) (year : Int) (idxN idxD : Nat)
    (idxLiq idxOil idxTemp : Option Nat) :
    ∀ (rows : List (List Data)) (st : IngestState) (r : WellRecord),
      r ∈ (rowsState asDT year idxN idxD idxLiq idxOil idxTemp rows st).records →
      r ∈ st.records ∨ r.year_sheet = year := by
  intro rows
  induction rows with
  | nil =>
    intro st r hr
    exact Or.inl hr
  | cons row rest ih =>
    intro st r hr
    have hstep : ∀ (rec : WellRecord) (st1 : IngestState),
        rec.year_sheet = year →
        st1.records = st.records ++ [rec] →
        r ∈ (rowsState asDT year idxN idxD idxLiq idxOil idxTemp rest st1).records →
        r ∈ st.records ∨ r.year_sheet = year := by
      intro rec st1 hy hrec hr2
      rcases ih st1 r hr2 with h1 | h2
      · rw [hrec] at h1
        rcases List.mem_append.mp h1 with h3 | h4
        · exact Or.inl h3
        · rcases List.mem_singleton.mp h4 with rfl
          exact Or.inr hy
      · exact Or.inr h2
    rcases hcell : row[idxN]? with _ | cell
    · simp only [rowsState, List.get?_eq_getElem?, hcell] at hr
      exact ih _ _ hr
    · cases cell <;> simp only [rowsState, List.get?_eq_getElem?, hcell] at hr <;>
        first
        | exact ih _ _ hr
        | exact hstep _ _ rfl rfl hr

/-- Provenance invariant of the sheet loop: on success, every record beyond
those already in the incoming state comes from a sheet whose name parsed to
that record's year and whose header resolved both required columns. -/
theorem processSheets_ok_records (asDT : Data → Option Int) :
    ∀ (ss : List Sheet) (total idx : Nat) (st out : IngestState),
      (processSheets asDT total idx ss st).2 = Except.ok out →
      ∀ r ∈ out.records, r ∈ st.records ∨
        ∃ s ∈ ss, parseI32 s.name = some r.year_sheet ∧
          ∃ header rest2, s.rows = header :: rest2 ∧
            (colLookup header NAME_COL).isSome ∧ (colLookup header "Date").isSome := by
  intro ss
  induction ss with
  | nil =>
    intro total idx st out h r hr
    simp only [processSheets] at h
    rcases Except.ok.inj h with rfl
    exact Or.inl hr
  | cons s rest ih =>
    intro total idx st out h r hr
    have weaken : (r ∈ st.records ∨
        ∃ w ∈ rest, parseI32 w.name = some r.year_sheet ∧
          ∃ header rest2, w.rows = header :: rest2 ∧
            (colLookup header NAME_COL).isSome ∧ (colLookup header "Date").isSome) →
        r ∈ st.records ∨
        ∃ w ∈ s :: rest, parseI32 w.name = some r.year_sheet ∧
          ∃ header rest2, w.rows = header :: rest2 ∧
            (colLookup header NAME_COL).isSome ∧ (colLookup header "Date").isSome := by
      rintro (h1 | ⟨w, hw, hprop⟩)
      · exact Or.inl h1
      · exact Or.inr ⟨w, List.mem_cons_of_mem s hw, hprop⟩
    rcases hp : parseI32 s.name with _ | year
    · simp only [processSheets, hp] at h
      exact weaken (ih _ _ _ _ h r hr)
    · rcases hrows : s.rows with _ | ⟨header, dataRows⟩
      · simp only [processSheets, hp, hrows] at h
        exact Except.noConfusion h
      · rcases hn : colLookup header NAME_COL with _ | idxN
        · simp only [processSheets, hp, hrows, hn] at h
          exact weaken (ih _ _ _ _ h r hr)
        · rcases hd2 : colLookup header "Date" with _ | idxD
          · simp only [processSheets, hp, hrows, hn, hd2] at h
            exact weaken (ih _ _ _ _ h r hr)
          · simp only [processSheets, hp, hrows, hn, hd2, processRows_snd] at h
            rcases ih _ _ _ _ h r hr with h1 | h2
            · rcases rowsState_records asDT year idxN idxD
                (colLookup header "PdLiq") (colLookup header "PdOil")
                (colLookup header TEMPERATURE_COL) dataRows _ r h1 with h3 | h4
              · exact Or.inl h3
              · refine Or.inr ⟨s, List.mem_cons_self s rest, ?_, header, dataRows, hrows, ?_, ?_⟩
                · rw [hp, h4]
                · rw [hn]
                  rfl
                · rw [hd2]
                  rfl
            · exact weaken (Or.inr h2)

/-- C9.  Every record produced by a successful ingestion comes from a sheet
whose name parsed to exactly the record's `sheet_year` and whose header row
resolved both the well-name column and the Date column; and a sheet missing
either required column contributes nothing at all — removing it leaves the
ingestion outcome unchanged, so in particular it does not fail the job. -/
theorem claim_C9 (asDT : Data → Option Int) :
    (∀ (wb : Workbook) (recs : List WellRecord) (ys : List Int) (ws : List String),
        (readExcelFile asDT wb).2 = Except.ok (recs, ys, ws) →
        ∀ r ∈ recs, ∃ s ∈ wb, parseI32 s.name = some r.year_sheet ∧
          ∃ header rest2, s.rows = header :: rest2 ∧
            (colLookup header NAME_COL).isSome ∧ (colLookup header "Date").isSome) ∧
      (∀ (pre post : Workbook) (s : Sheet) (header : List Data) (rest2 : List (List Data)),
        s.rows = header :: rest2 →
        (colLookup header NAME_COL = none ∨ colLookup header "Date" = none) →
        (readExcelFile asDT (pre ++ s :: post)).2 = (readExcelFile asDT (pre ++ post)).2) := by
  constructor
  · intro wb recs ys ws h r hr
    rw [readExcelFile_snd] at h
    rcases hps : (processSheets asDT wb.length 0 wb ⟨[], [], []⟩).2 with e | out
    · rw [hps] at h
      cases h
    · rw [hps] at h
      have htriple := Except.ok.inj h
      simp only [Prod.mk.injEq] at htriple
      obtain ⟨h1, -, -⟩ := htriple
      rw [← h1] at hr
      rcases processSheets_ok_records asDT wb wb.length 0 ⟨[], [], []⟩ out hps r hr with
        h2 | h3
      · exact absurd h2 (List.not_mem_nil r)
      · exact h3
  · intro pre post s header rest2 hrows hcol
    rw [readExcelFile_snd, readExcelFile_snd,
      processSheets_insert_skip asDT s (Or.inr ⟨header, rest2, hrows, hcol⟩) pre post
        (pre ++ s :: post).length (pre ++ post).length 0 0 ⟨[], [], []⟩]

/-- C9 (witness): the one-sheet workbook named "2020" yields exactly one
record, and the theorem locates its originating sheet with both required
columns resolved. -/
theorem claim_C9_witness :
    ((readExcelFile (fun _ => none)
        [⟨"2020", [[Data.string NAME_COL, Data.string "Date"],
          [Data.string "A7", Data.empty]]⟩]).2 =
      Except.ok ([⟨"A7", none, none, none, none, 2020⟩], [2020], ["A7"])) ∧
      (∃ s ∈ [(⟨"2020", [[Data.string NAME_COL, Data.string "Date"],
            [Data.string "A7", Data.empty]]⟩ : Sheet)],
        parseI32 s.name = some (⟨"A7", none, none, none, none, 2020⟩ : WellRecord).year_sheet ∧
        ∃ header rest2, s.rows = header :: rest2 ∧
          (colLookup header NAME_COL).isSome ∧ (colLookup header "Date").isSome) := by
  have hok : (readExcelFile (fun _ => none)
      [⟨"2020", [[Data.string NAME_COL, Data.string "Date"],
        [Data.string "A7", Data.empty]]⟩]).2 =
      Except.ok ([⟨"A7", none, none, none, none, 2020⟩], [2020], ["A7"]) := by
    decide
  exact ⟨hok, (claim_C9 (fun _ => none)).1 _ _ _ _ hok
    ⟨"A7", none, none, none, none, 2020⟩ (by decide)⟩

/-- C10.  The data-row loop produces exactly the records described by the
per-row extraction rule: each row contributes one record iff its name-column
cell is textual (copied as-is), a float, or an integer (both stringified with
their default formatting); any other cell kind or a missing cell contributes
nothing — and, the loop being a total function, dropping a row never raises an
error. -/
theorem claim_C10 (ctx : RowCtx) (i : Nat) (rows : List (List Data)) (st : IngestState) :
    (processRows ctx i rows st).2.records = st.records ++ rows.filterMap (specRowRecord ctx) := by
  induction rows generalizing i st with
  | nil => simp [processRows]
  | cons row rest ih =>
    rcases hcell : row[ctx.idxN]? with _ | cell
    · simp [processRows, hcell, specRowRecord, specWellNameOfCell, ih]
    · cases cell <;>
        simp [processRows, hcell, specRowRecord, specWellNameOfCell, ih, List.append_assoc]

end WellData
